import Mathlib

/-!
# Verification of the PR triage classifier (`src/pr-generator.js`)

Shallow embedding of the classification core of the pending-PRs-list
generator.  Pull requests, reviews and comments are modelled as records of
the fields the classifier reads; JavaScript `Map`s (insertion-ordered,
`set` updates in place) are modelled as association lists, JavaScript
`Set`s as duplicate-free lists, and the in-place stable `Array.sort` as
`List.insertionSort` (stable, and V8's sort is specified stable for the
Node versions the project targets).  Timestamps (`submitted_at`,
`created_at`) are modelled as natural numbers (milliseconds since epoch),
and the `REVIEW_OWNER` environment variable as an `Option String`.
-/

/-- A review as read by the classifier: `user.login`, `state`,
`submitted_at`. -/
structure Review where
  login : String
  state : String
  submittedAt : Nat
deriving DecidableEq, Repr

/-- A comment as read by the classifier: `user.login` and `user.type`. -/
structure Comment where
  login : String
  userType : String
deriving DecidableEq, Repr

/-- A pull request as read by the classifier and renderer.  `labels` holds
the label names (`labels[].name`), `requestedReviewers` the logins of the
individually requested reviewers (`requested_reviewers[].login`), and
`requestedTeams` the requested team slugs (read but never used by the
code). -/
structure PR where
  number : Nat
  title : String
  htmlUrl : String
  authorLogin : String
  createdAt : Nat
  labels : List String
  requestedReviewers : List String
  requestedTeams : List String
  reviews : List Review
  reviewComments : List Comment
  issueComments : List Comment
deriving DecidableEq, Repr

/-- ASCII lowercasing, the model of JavaScript `toLowerCase()` on the
label/handle strings the program compares. -/
def lowerStr (s : String) : String :=
  ⟨s.data.map Char.toLower⟩

/-- `needle` occurs at the head of `hay`. -/
def matchesAt : List Char → List Char → Bool
  | [], _ => true
  | _ :: _, [] => false
  | a :: as, b :: bs => a == b && matchesAt as bs

/-- `needle` occurs contiguously somewhere in `hay`; the model of
JavaScript `String.prototype.includes`. -/
def hasSubList : List Char → List Char → Bool
  | hay, needle =>
    matchesAt needle hay ||
      match hay with
      | [] => false
      | _ :: t => hasSubList t needle

/-- JavaScript `s.includes(pat)`. -/
def strIncludes (s pat : String) : Bool :=
  hasSubList s.data pat.data

/-- The per-comment keep-condition of `getAllComments`:
`!comment.user.login.includes('bot') && comment.user.login !== 'gitstream-cm'
&& comment.user.type !== 'Bot'`. -/
def isHumanComment (c : Comment) : Bool :=
  !(strIncludes c.login "bot") && c.login ≠ "gitstream-cm" && c.userType ≠ "Bot"

/-- `getAllComments(pr)`: concatenate review comments and issue comments and
drop bot comments. -/
def getAllComments (pr : PR) : List Comment :=
  (pr.reviewComments ++ pr.issueComments).filter isHumanComment

/-- The comparator of the `pr.reviews.sort(...)` call in `getApprovals`:
ascending submission timestamp. -/
def reviewLe (a b : Review) : Prop :=
  a.submittedAt ≤ b.submittedAt

instance : DecidableRel reviewLe := fun a b => Nat.decLe a.submittedAt b.submittedAt

instance : IsTotal Review reviewLe := ⟨fun a b => Nat.le_total a.submittedAt b.submittedAt⟩

instance : IsTrans Review reviewLe := ⟨fun _ _ _ h h' => Nat.le_trans h h'⟩

/-- JavaScript `Map.prototype.get` on an insertion-ordered association
list: the value of the (unique) entry with the given key. -/
def assocGet {β : Type} (k : String) : List (String × β) → Option β
  | [] => none
  | e :: t => if e.1 = k then some e.2 else assocGet k t

/-- JavaScript `Map.prototype.set` on an insertion-ordered association
list: an existing key keeps its position and gets the new value, a fresh
key is appended. -/
def jsMapSet {β : Type} (m : List (String × β)) (k : String) (v : β) : List (String × β) :=
  if ∃ e ∈ m, e.1 = k then
    m.map (fun e => if e.1 = k then (k, v) else e)
  else
    m ++ [(k, v)]

/-- `getApprovals(pr)`: stable-sort the reviews by submission timestamp,
overwrite a login-keyed map in that order (so each login keeps its latest
review), and return the values whose state is `APPROVED`. -/
def getApprovals (pr : PR) : List Review :=
  let sorted := List.insertionSort reviewLe pr.reviews
  let m := sorted.foldl (fun m r => jsMapSet m r.login r) []
  (m.map Prod.snd).filter (fun r => r.state = "APPROVED")

/-- `getApprovals` sorts `pr.reviews` in place (`Array.prototype.sort`
mutates); this is the post-state of the pull request after the call. -/
def sortReviewsInPlace (pr : PR) : PR :=
  { pr with reviews := List.insertionSort reviewLe pr.reviews }

/-- One step of the comment-counting loop:
`commentCounts.set(user, (commentCounts.get(user) || 0) + 1)`. -/
def bumpCount (m : List (String × Nat)) (u : String) : List (String × Nat) :=
  jsMapSet m u ((assocGet u m).getD 0 + 1)

/-- The login-keyed comment tally built by both prolific-commenter
functions. -/
def commentCounts (comments : List Comment) : List (String × Nat) :=
  comments.foldl (fun m c => bumpCount m c.login) []

/-- `getProlificCommentersWithoutApproval(pr)`: logins with 3+ human
comments that have not approved and are not the PR author, in map
insertion order. -/
def getProlificCommentersWithoutApproval (pr : PR) : List String :=
  let comments := getAllComments pr
  let approvedUsers := (getApprovals pr).map (fun a => a.login)
  let prOwner := pr.authorLogin
  let counts := commentCounts comments
  (counts.filter (fun e =>
    3 ≤ e.2 && e.1 ∉ approvedUsers && e.1 ≠ prOwner)).map Prod.fst

/-- `getProlificCommentersReRequested(pr)`: logins with 3+ human comments
that are currently requested reviewers, have not approved, and are not the
PR author. -/
def getProlificCommentersReRequested (pr : PR) : List String :=
  let comments := getAllComments pr
  let approvedUsers := (getApprovals pr).map (fun a => a.login)
  let prOwner := pr.authorLogin
  let requestedReviewers := pr.requestedReviewers
  let counts := commentCounts comments
  (counts.filter (fun e =>
    3 ≤ e.2 && e.1 ∈ requestedReviewers &&
      e.1 ∉ approvedUsers && e.1 ≠ prOwner)).map Prod.fst

/-- JavaScript `Set.prototype.add` on a duplicate-free list. -/
def setInsert (s : List String) (x : String) : List String :=
  if x ∈ s then s else s ++ [x]

/-- `hasCommentsToFix(pr)`: true when some human commenter other than the
author is not currently a requested reviewer.  Requested teams are read
but contribute nothing (the source's team loop is empty). -/
def hasCommentsToFix (pr : PR) : Bool :=
  let comments := getAllComments pr
  if comments.isEmpty then
    false
  else
    let commenters := comments.foldl
      (fun s c => if c.login ≠ pr.authorLogin then setInsert s c.login else s) []
    if commenters.isEmpty then
      false
    else
      let requestedReviewers := pr.requestedReviewers
      commenters.any (fun c => c ∉ requestedReviewers)

/-- `hasReviewOwnerApproval(pr)`: false when `REVIEW_OWNER` is unset,
otherwise whether that login is among the current approvals. -/
def hasReviewOwnerApproval (reviewOwner : Option String) (pr : PR) : Bool :=
  match reviewOwner with
  | none => false
  | some o => (getApprovals pr).any (fun approval => approval.login = o)

/-- `hasHighPriorityLabel(pr)`: some label name, lowercased, contains one
of the five priority markers. -/
def hasHighPriorityLabel (pr : PR) : Bool :=
  pr.labels.any (fun name =>
    strIncludes (lowerStr name) "high priority" ||
    strIncludes (lowerStr name) "high-priority" ||
    strIncludes (lowerStr name) "priority : high" ||
    strIncludes (lowerStr name) "urgent" ||
    strIncludes (lowerStr name) "critical")

/-- The closed set of triage categories. -/
inductive Category where
  | highPriority
  | needOneMoreApproval
  | needsProlificCommentersApproval
  | requiresReview
  | hasCommentsToFix
  | needsMerging
deriving DecidableEq, Repr

/-- The six output lists of `categorizePRs`, in the order the source
declares them. -/
structure Categories where
  highPriority : List PR
  needOneMoreApproval : List PR
  needsProlificCommentersApproval : List PR
  requiresReview : List PR
  hasCommentsToFix : List PR
  needsMerging : List PR
deriving DecidableEq, Repr

/-- The body of the `prs.forEach` loop of `categorizePRs`: compute the
helper facts, then push the pull request into the list selected by the
if/else-if cascade (or into none of them). -/
def classifyStep (env : Option String) (c : Categories) (pr : PR) : Categories :=
  let approvalCount := (getApprovals pr).length
  let prolificCommentersReRequested := getProlificCommentersReRequested pr
  let prolificCommentersWithoutApproval := getProlificCommentersWithoutApproval pr
  let hasCommentsToFixFlag := hasCommentsToFix pr
  let reviewOwnerApproval := hasReviewOwnerApproval env pr
  let isHighPriority := hasHighPriorityLabel pr
  if isHighPriority then
    { c with highPriority := c.highPriority ++ [pr] }
  else if 0 < prolificCommentersReRequested.length then
    { c with needsProlificCommentersApproval := c.needsProlificCommentersApproval ++ [pr] }
  else if hasCommentsToFixFlag then
    { c with hasCommentsToFix := c.hasCommentsToFix ++ [pr] }
  else if 2 ≤ approvalCount ∧ !hasCommentsToFixFlag ∧ !reviewOwnerApproval then
    { c with needsMerging := c.needsMerging ++ [pr] }
  else if 0 < prolificCommentersWithoutApproval.length then
    { c with needsProlificCommentersApproval := c.needsProlificCommentersApproval ++ [pr] }
  else if approvalCount = 1 then
    { c with needOneMoreApproval := c.needOneMoreApproval ++ [pr] }
  else if approvalCount = 0 then
    { c with requiresReview := c.requiresReview ++ [pr] }
  else
    c

/-- `categorizePRs(prs)`: fold the cascade over the pull requests,
starting from six empty lists. -/
def categorizePRs (env : Option String) (prs : List PR) : Categories :=
  prs.foldl (classifyStep env) ⟨[], [], [], [], [], []⟩

/-- The category the cascade assigns to a single pull request (`none` when
the pull request falls through all seven rules). -/
def classify (env : Option String) (pr : PR) : Option Category :=
  let approvalCount := (getApprovals pr).length
  let prolificCommentersReRequested := getProlificCommentersReRequested pr
  let prolificCommentersWithoutApproval := getProlificCommentersWithoutApproval pr
  let hasCommentsToFixFlag := hasCommentsToFix pr
  let reviewOwnerApproval := hasReviewOwnerApproval env pr
  let isHighPriority := hasHighPriorityLabel pr
  if isHighPriority then
    some Category.highPriority
  else if 0 < prolificCommentersReRequested.length then
    some Category.needsProlificCommentersApproval
  else if hasCommentsToFixFlag then
    some Category.hasCommentsToFix
  else if 2 ≤ approvalCount ∧ !hasCommentsToFixFlag ∧ !reviewOwnerApproval then
    some Category.needsMerging
  else if 0 < prolificCommentersWithoutApproval.length then
    some Category.needsProlificCommentersApproval
  else if approvalCount = 1 then
    some Category.needOneMoreApproval
  else if approvalCount = 0 then
    some Category.requiresReview
  else
    none

/-- The comparator of `sortPRsByPriority`: high-priority first, then
creation timestamp descending (`new Date(b.created_at) - new
Date(a.created_at)`). -/
def prCmp (a b : PR) : Int :=
  if hasHighPriorityLabel a && !(hasHighPriorityLabel b) then -1
  else if !(hasHighPriorityLabel a) && hasHighPriorityLabel b then 1
  else (b.createdAt : Int) - (a.createdAt : Int)

/-- `a` sorts no later than `b` under the `sortPRsByPriority`
comparator. -/
def prLe (a b : PR) : Prop :=
  prCmp a b ≤ 0

instance : DecidableRel prLe := fun a b => Int.decLe (prCmp a b) 0

instance : IsTotal PR prLe :=
  ⟨fun a b => by
    unfold prLe prCmp
    cases ha : hasHighPriorityLabel a <;> cases hb : hasHighPriorityLabel b <;>
      simp [ha, hb] <;> omega⟩

instance : IsTrans PR prLe :=
  ⟨fun a b c hab hbc => by
    unfold prLe prCmp at *
    cases ha : hasHighPriorityLabel a <;> cases hb : hasHighPriorityLabel b <;>
      cases hc : hasHighPriorityLabel c <;>
      simp [ha, hb, hc] at * <;> omega⟩

/-- `sortPRsByPriority(prs)`: stable sort under the priority comparator
(defined in the source, but never invoked by `generateMarkdown`). -/
def sortPRsByPriority (prs : List PR) : List PR :=
  List.insertionSort prLe prs

/-- The pull requests enumerated by the six section blocks of
`generateMarkdown`, in render order. -/
def reportPRs (c : Categories) : List PR :=
  c.highPriority ++ c.needOneMoreApproval ++ c.needsProlificCommentersApproval ++
    c.requiresReview ++ c.hasCommentsToFix ++ c.needsMerging

/-- `generateMarkdown(prs, owner, repo)`.  The `Generated on:` line calls
`new Date().toISOString().split('T')[0]`; the wall clock is modelled by
the extra `today` parameter. -/
def generateMarkdown (today : String) (env : Option String) (prs : List PR)
    (owner repo : String) : String :=
  let categories := categorizePRs env prs
  let header := "# Pull Requests for " ++ owner ++ "/" ++ repo ++ "\n\n" ++
    "Generated on: " ++ today ++ "\n" ++
    "Total PRs: " ++ toString prs.length ++ "\n\n"
  let hpSection :=
    if 0 < categories.highPriority.length then
      "## High Priority :rotating_light:\n" ++
      String.join (categories.highPriority.map (fun pr =>
        let approvalCount := (getApprovals pr).length
        let status :=
          if approvalCount = 0 then "needs review"
          else if approvalCount = 1 then "needs one more approval"
          else "ready to merge"
        "- [" ++ pr.title ++ "](" ++ pr.htmlUrl ++ ") (" ++ status ++ ")\n")) ++ "\n"
    else ""
  let oneMoreSection :=
    if 0 < categories.needOneMoreApproval.length then
      "## Need one more approval :white_check_mark:\n" ++
      String.join (categories.needOneMoreApproval.map (fun pr =>
        let approvals := getApprovals pr
        let approverName :=
          match approvals with
          | [] => "unknown"
          | a :: _ => a.login
        "- [" ++ pr.title ++ "](" ++ pr.htmlUrl ++ ") (approved by " ++
          approverName ++ ")\n")) ++ "\n"
    else ""
  let prolificSection :=
    if 0 < categories.needsProlificCommentersApproval.length then
      "## Needs approvals from previous :sparkles: prolific :sparkles: commenters\n" ++
      String.join (categories.needsProlificCommentersApproval.map (fun pr =>
        let reRequested := getProlificCommentersReRequested pr
        let withoutApproval := getProlificCommentersWithoutApproval pr
        let annotation :=
          if 0 < reRequested.length then
            ("re-requested", String.intercalate ", " reRequested)
          else if 0 < withoutApproval.length then
            ("waiting for", String.intercalate ", " withoutApproval)
          else
            ("", "")
        "- [" ++ pr.title ++ "](" ++ pr.htmlUrl ++ ") (" ++ annotation.1 ++ ": " ++
          annotation.2 ++ ")\n")) ++ "\n"
    else ""
  let reviewSection :=
    if 0 < categories.requiresReview.length then
      "## Requires review :writing_hand:\n" ++
      String.join (categories.requiresReview.map (fun pr =>
        "- [" ++ pr.title ++ "](" ++ pr.htmlUrl ++ ")\n")) ++ "\n"
    else ""
  let commentsSection :=
    if 0 < categories.hasCommentsToFix.length then
      "## Have some comments to fix :wrench:\n" ++
      String.join (categories.hasCommentsToFix.map (fun pr =>
        let commentCount := (getAllComments pr).length
        "- [" ++ pr.title ++ "](" ++ pr.htmlUrl ++ ") (" ++ toString commentCount ++
          " comment" ++ (if commentCount ≠ 1 then "s" else "") ++ ")\n")) ++ "\n"
    else ""
  let mergingSection :=
    if 0 < categories.needsMerging.length then
      "## Needs merging (Reminder for me :zany_face:)\n" ++
      String.join (categories.needsMerging.map (fun pr =>
        let approvalCount := (getApprovals pr).length
        "- [" ++ pr.title ++ "](" ++ pr.htmlUrl ++ ") (" ++ toString approvalCount ++
          " approvals)\n")) ++ "\n"
    else ""
  let emptyNote :=
    if prs.length = 0 then "No open pull requests found.\n" else ""
  header ++ hpSection ++ oneMoreSection ++ prolificSection ++ reviewSection ++
    commentsSection ++ mergingSection ++ emptyNote

/-- Modelled from the spec (§4.1, refinement side): the review of login
`u` with the maximum submission timestamp, ties broken by list order with
the later review winning. -/
def latestReviewOf (u : String) : List Review → Option Review
  | [] => none
  | r :: rs =>
    let rest := latestReviewOf u rs
    if r.login = u then
      match rest with
      | none => some r
      | some r' => if r.submittedAt ≤ r'.submittedAt then some r' else some r
    else rest

/-- Modelled from the spec (§4.2, refinement side): a comment is removed
iff the author kind is `Bot`, or the login contains the case-sensitive
substring "bot", or the login equals the fixed automation account name. -/
def botRemovedSpec (c : Comment) : Bool :=
  c.userType = "Bot" || strIncludes c.login "bot" || c.login = "gitstream-cm"

/-- The five priority markers of `hasHighPriorityLabel`. -/
def highPriorityPatterns : List String :=
  ["high priority", "high-priority", "priority : high", "urgent", "critical"]

/-- The last review in the list whose author is `u` (analysis helper for
the login-keyed overwrite fold). -/
def lastMatch (u : String) : List Review → Option Review
  | [] => none
  | r :: rs =>
    match lastMatch u rs with
    | some r' => some r'
    | none => if r.login = u then some r else none

/-- Keys of the association list are distinct and every stored review
carries its key as login — the invariant of the map built by
`getApprovals`. -/
def ReviewMapInv (m : List (String × Review)) : Prop :=
  (∀ e ∈ m, e.2.login = e.1) ∧ (m.map Prod.fst).Nodup

/-- Apply `f` to every pull request of all six category lists (used to
relate a second classification run on the post-mutation snapshot to the
first run). -/
def mapCategories (f : PR → PR) (c : Categories) : Categories :=
  ⟨c.highPriority.map f, c.needOneMoreApproval.map f,
    c.needsProlificCommentersApproval.map f, c.requiresReview.map f,
    c.hasCommentsToFix.map f, c.needsMerging.map f⟩

/-- A minimal well-formed pull request, the base of the concrete test
inputs below. -/
def emptyPR : PR :=
  { number := 1, title := "Example", htmlUrl := "https://example.test/pr/1",
    authorLogin := "C", createdAt := 0, labels := [], requestedReviewers := [],
    requestedTeams := [], reviews := [], reviewComments := [], issueComments := [] }

/-- Five human comments by "B" (author "C", nobody requested, no approvals,
no labels). -/
def prFiveComments : PR :=
  { emptyPR with issueComments :=
      [⟨"B", "User"⟩, ⟨"B", "User"⟩, ⟨"B", "User"⟩, ⟨"B", "User"⟩, ⟨"B", "User"⟩] }

/-- Two approvals ("A" and "B"), no comments, no labels. -/
def prTwoApprovals : PR :=
  { emptyPR with reviews := [⟨"A", "APPROVED", 1⟩, ⟨"B", "APPROVED", 2⟩] }

/-- No labels, created at time 1. -/
def prT1 : PR :=
  { emptyPR with title := "PR-T1", htmlUrl := "https://example.test/pr/t1", createdAt := 1 }

/-- No labels, created at time 2. -/
def prT2 : PR :=
  { emptyPR with title := "PR-T2", htmlUrl := "https://example.test/pr/t2", createdAt := 2 }

/-- An "URGENT-fix" label together with state that would otherwise hit
rules 2 and 3 (a prolific re-requested commenter). -/
def prUrgent : PR :=
  { emptyPR with
    labels := ["URGENT-fix"]
    requestedReviewers := ["B"]
    issueComments := [⟨"B", "User"⟩, ⟨"B", "User"⟩, ⟨"B", "User"⟩] }

/-- Reviews stored newest-first, so the in-place sort of `getApprovals`
reorders them. -/
def prUnsorted : PR :=
  { emptyPR with reviews := [⟨"A", "APPROVED", 2⟩, ⟨"B", "APPROVED", 1⟩] }

/-- One bot comment and one human comment. -/
def prBotComment : PR :=
  { emptyPR with reviewComments := [⟨"dependabot", "User"⟩, ⟨"B", "User"⟩] }

/-- One human comment by "B" who is not a requested reviewer. -/
def prOneComment : PR :=
  { emptyPR with issueComments := [⟨"B", "User"⟩] }

/-! ### Lemmas: the JavaScript `Map` model -/

theorem assocGet_eq_none {β : Type} (m : List (String × β)) (k : String)
    (h : ∀ e ∈ m, e.1 ≠ k) : assocGet k m = none := by
  induction m with
  | nil => rfl
  | cons e t ih =>
    have he := h e (List.mem_cons_self e t)
    simp only [assocGet, if_neg he]
    exact ih fun e' he' => h e' (List.mem_cons_of_mem _ he')

theorem assocGet_map_update {β : Type} (m : List (String × β)) (k k' : String) (v : β) :
    assocGet k' (m.map fun e => if e.1 = k then (k, v) else e) =
      if k' = k then (if ∃ e ∈ m, e.1 = k then some v else none)
      else assocGet k' m := by
  induction m with
  | nil => simp [assocGet]
  | cons e t ih =>
    by_cases hek : e.1 = k
    · by_cases hk : k' = k
      · subst hk
        simp [assocGet, hek, List.exists_mem_cons_iff]
      · have hk' : ¬k = k' := fun h => hk h.symm
        simp [assocGet, hek, hk, hk', ih]
    · by_cases hek' : e.1 = k'
      · have hk : k' ≠ k := fun h => hek (hek'.trans h)
        simp [assocGet, hek, hek', hk]
      · by_cases hk : k' = k
        · subst hk
          have hiff : (∃ x ∈ e :: t, x.1 = k') ↔ ∃ x ∈ t, x.1 = k' := by
            constructor
            · rintro ⟨x, hx, hxk⟩
              rcases List.mem_cons.mp hx with rfl | hmem
              · exact absurd hxk hek
              · exact ⟨x, hmem, hxk⟩
            · rintro ⟨x, hx, hxk⟩
              exact ⟨x, List.mem_cons_of_mem _ hx, hxk⟩
          simp only [assocGet, if_neg hek', ih, if_pos rfl]
          exact (if_congr hiff rfl rfl).symm
        · simp [assocGet, hek, hek', hk, ih]

theorem assocGet_append_single {β : Type} (m : List (String × β)) (k k' : String) (v : β) :
    assocGet k' (m ++ [(k, v)]) =
      match assocGet k' m with
      | some x => some x
      | none => if k' = k then some v else none := by
  induction m with
  | nil => simp [assocGet, eq_comm]
  | cons e t ih =>
    by_cases hek' : e.1 = k'
    · simp [assocGet, hek']
    · simp [assocGet, hek', ih]

theorem assocGet_jsMapSet {β : Type} (m : List (String × β)) (k k' : String) (v : β) :
    assocGet k' (jsMapSet m k v) = if k' = k then some v else assocGet k' m := by
  unfold jsMapSet
  by_cases hex : ∃ e ∈ m, e.1 = k
  · rw [if_pos hex, assocGet_map_update]
    simp [hex]
  · rw [if_neg hex, assocGet_append_single]
    push_neg at hex
    by_cases hk : k' = k
    · subst hk
      rw [assocGet_eq_none m k' hex]
    · cases h : assocGet k' m <;> simp [hk, h]

theorem lastMatch_mem {u : String} {l : List Review} {r : Review}
    (h : lastMatch u l = some r) : r ∈ l := by
  induction l with
  | nil => simp [lastMatch] at h
  | cons x xs ih =>
    rw [lastMatch] at h
    cases hx : lastMatch u xs with
    | some r' =>
      rw [hx] at h
      cases h
      exact List.mem_cons_of_mem _ (ih hx)
    | none =>
      rw [hx] at h
      by_cases hl : x.login = u
      · rw [if_pos hl] at h
        cases h
        exact List.mem_cons_self _ _
      · rw [if_neg hl] at h
        cases h

theorem assocGet_foldl_jsMapSet (l : List Review) :
    ∀ (m : List (String × Review)) (u : String),
      assocGet u (l.foldl (fun m r => jsMapSet m r.login r) m) =
        match lastMatch u l with
        | some r => some r
        | none => assocGet u m := by
  induction l with
  | nil => intro m u; simp [lastMatch]
  | cons r t ih =>
    intro m u
    rw [List.foldl_cons, ih, lastMatch]
    cases h : lastMatch u t with
    | some r' => simp
    | none =>
      simp only [assocGet_jsMapSet]
      by_cases hu : u = r.login
      · simp [hu]
      · have : ¬r.login = u := fun h' => hu h'.symm
        simp [hu, this]

theorem reviewMapInv_jsMapSet {m : List (String × Review)} (h : ReviewMapInv m)
    (r : Review) : ReviewMapInv (jsMapSet m r.login r) := by
  obtain ⟨hlog, hkeys⟩ := h
  unfold jsMapSet
  by_cases hex : ∃ e ∈ m, e.1 = r.login
  · rw [if_pos hex]
    constructor
    · intro e he
      rcases List.mem_map.mp he with ⟨e₀, he₀, hupd⟩
      by_cases h₀ : e₀.1 = r.login
      · rw [if_pos h₀] at hupd
        rw [← hupd]
      · rw [if_neg h₀] at hupd
        rw [← hupd]
        exact hlog e₀ he₀
    · have hmapfst : (m.map fun e => if e.1 = r.login then (r.login, r) else e).map Prod.fst
          = m.map Prod.fst := by
        rw [List.map_map]
        apply List.map_congr_left
        intro e he
        by_cases h₀ : e.1 = r.login
        · simp [h₀]
        · simp [h₀]
      rw [hmapfst]
      exact hkeys
  · rw [if_neg hex]
    constructor
    · intro e he
      rcases List.mem_append.mp he with h₁ | h₁
      · exact hlog e h₁
      · rcases List.mem_singleton.mp h₁ with rfl
        rfl
    · rw [List.map_append]
      simp only [List.map_cons, List.map_nil]
      rw [List.nodup_append]
      refine ⟨hkeys, List.nodup_singleton _, ?_⟩
      intro a ha hb
      rcases List.mem_singleton.mp hb with rfl
      rcases List.mem_map.mp ha with ⟨e, he, hfst⟩
      exact hex ⟨e, he, hfst⟩

theorem reviewMapInv_foldl (l : List Review) :
    ∀ (m : List (String × Review)), ReviewMapInv m →
      ReviewMapInv (l.foldl (fun m r => jsMapSet m r.login r) m) := by
  induction l with
  | nil => intro m hm; exact hm
  | cons r t ih =>
    intro m hm
    rw [List.foldl_cons]
    exact ih _ (reviewMapInv_jsMapSet hm r)

theorem mem_snd_iff_assocGet {m : List (String × Review)} (h : ReviewMapInv m)
    (r : Review) : r ∈ m.map Prod.snd ↔ assocGet r.login m = some r := by
  obtain ⟨hlog, hkeys⟩ := h
  induction m with
  | nil => simp [assocGet]
  | cons e t ih =>
    have hloge : e.2.login = e.1 := hlog e (List.mem_cons_self e t)
    have hlogt : ∀ e' ∈ t, e'.2.login = e'.1 :=
      fun e' he' => hlog e' (List.mem_cons_of_mem _ he')
    rw [List.map_cons] at hkeys
    have hnotin : e.1 ∉ t.map Prod.fst := (List.nodup_cons.mp hkeys).1
    have hkeyt : (t.map Prod.fst).Nodup := (List.nodup_cons.mp hkeys).2
    by_cases hek : e.1 = r.login
    · rw [List.map_cons]
      simp only [assocGet, if_pos hek]
      constructor
      · intro hmem
        rcases List.mem_cons.mp hmem with h₁ | h₁
        · rw [h₁]
        · exfalso
          rcases List.mem_map.mp h₁ with ⟨e', he', hsnd⟩
          apply hnotin
          rw [hek]
          have hre : r.login = e'.1 := by
            rw [← hsnd]
            exact hlogt e' he'
          rw [hre]
          exact List.mem_map.mpr ⟨e', he', rfl⟩
      · intro hsome
        cases hsome
        exact List.mem_cons_self _ _
    · rw [List.map_cons]
      simp only [assocGet, if_neg hek]
      rw [← ih hlogt hkeyt]
      constructor
      · intro hmem
        rcases List.mem_cons.mp hmem with h₁ | h₁
        · exfalso
          apply hek
          rw [← hloge, h₁]
        · exact h₁
      · exact List.mem_cons_of_mem _

theorem lastMatch_orderedInsert (x : Review) (S : List Review)
    (hs : List.Sorted reviewLe S) (u : String) :
    lastMatch u (List.orderedInsert reviewLe x S) =
      if x.login = u then
        match lastMatch u S with
        | none => some x
        | some r' => if x.submittedAt ≤ r'.submittedAt then some r' else some x
      else lastMatch u S := by
  induction S with
  | nil =>
    simp only [List.orderedInsert, lastMatch]
  | cons y ys ih =>
    rw [List.orderedInsert]
    by_cases hle : reviewLe x y
    · rw [if_pos hle, lastMatch]
      cases h : lastMatch u (y :: ys) with
      | some r' =>
        have hr' : r' ∈ y :: ys := lastMatch_mem h
        have hxr' : x.submittedAt ≤ r'.submittedAt := by
          rcases List.mem_cons.mp hr' with rfl | h₁
          · exact hle
          · exact Nat.le_trans hle (List.rel_of_sorted_cons hs r' h₁)
        by_cases hx : x.login = u
        · simp [hx, hxr']
        · simp [hx]
      | none =>
        by_cases hx : x.login = u <;> simp [hx]
    · rw [if_neg hle, lastMatch, ih (List.Sorted.of_cons hs)]
      have hyx : ¬x.submittedAt ≤ y.submittedAt := hle
      by_cases hx : x.login = u
      · cases h : lastMatch u ys with
        | some r'' =>
          rw [if_pos hx]
          conv_rhs => rw [lastMatch]
          rw [h]
          by_cases ht : x.submittedAt ≤ r''.submittedAt <;> simp [ht, hx]
        | none =>
          rw [if_pos hx]
          conv_rhs => rw [lastMatch]
          rw [h]
          by_cases hy : y.login = u
          · rw [if_pos hy]
            simp [hyx, hx]
          · rw [if_neg hy]
            simp [hx]
      · rw [if_neg hx]
        conv_rhs => rw [lastMatch]
        cases h : lastMatch u ys with
        | some r'' => simp [hx]
        | none => simp [hx]

theorem lastMatch_insertionSort (l : List Review) (u : String) :
    lastMatch u (List.insertionSort reviewLe l) = latestReviewOf u l := by
  induction l with
  | nil => rfl
  | cons x xs ih =>
    rw [List.insertionSort,
      lastMatch_orderedInsert x _ (List.sorted_insertionSort reviewLe _) u, ih,
      latestReviewOf]

/-! ### Lemmas: `getApprovals` -/

theorem mem_getApprovals (pr : PR) (r : Review) :
    r ∈ getApprovals pr ↔
      latestReviewOf r.login pr.reviews = some r ∧ r.state = "APPROVED" := by
  unfold getApprovals
  simp only [List.mem_filter, decide_eq_true_eq]
  have hinv : ReviewMapInv
      ((List.insertionSort reviewLe pr.reviews).foldl
        (fun m r => jsMapSet m r.login r) []) :=
    reviewMapInv_foldl _ [] ⟨by simp, by simp⟩
  rw [mem_snd_iff_assocGet hinv, assocGet_foldl_jsMapSet, lastMatch_insertionSort]
  cases h : latestReviewOf r.login pr.reviews with
  | some r' => simp
  | none => simp [assocGet]

/-! ### Lemmas: comment counting and the prolific-commenter sets -/

theorem assocGet_bumpCount (m : List (String × Nat)) (u k : String) :
    assocGet k (bumpCount m u) =
      if k = u then some ((assocGet u m).getD 0 + 1) else assocGet k m := by
  unfold bumpCount
  rw [assocGet_jsMapSet]

theorem assocGet_countFold (l : List Comment) :
    ∀ (m : List (String × Nat)) (u : String),
      assocGet u (l.foldl (fun m c => bumpCount m c.login) m) =
        if l.countP (fun c => c.login = u) = 0 then assocGet u m
        else some ((assocGet u m).getD 0 + l.countP (fun c => c.login = u)) := by
  induction l with
  | nil => intro m u; simp
  | cons c t ih =>
    intro m u
    rw [List.foldl_cons, ih, List.countP_cons]
    by_cases hc : c.login = u
    · subst hc
      rw [assocGet_bumpCount, if_pos rfl]
      have hone : (if decide (c.login = c.login) = true then 1 else 0) = 1 := by simp
      rw [hone]
      have h1 : ¬(t.countP (fun x => x.login = c.login) + 1 = 0) := by omega
      rw [if_neg h1]
      by_cases ht : t.countP (fun x => x.login = c.login) = 0
      · rw [if_pos ht, ht]
      · rw [if_neg ht]
        simp only [Option.getD_some]
        congr 1
        omega
    · have hzero : (if decide (c.login = u) = true then 1 else 0) = 0 := by simp [hc]
      have hcu : ¬(u = c.login) := fun h => hc h.symm
      rw [hzero, assocGet_bumpCount, if_neg hcu]
      simp

theorem assocGet_commentCounts (comments : List Comment) (u : String) :
    assocGet u (commentCounts comments) =
      if comments.countP (fun c => c.login = u) = 0 then none
      else some (comments.countP (fun c => c.login = u)) := by
  unfold commentCounts
  rw [assocGet_countFold]
  simp [assocGet]

theorem keysNodup_jsMapSet {β : Type} {m : List (String × β)}
    (h : (m.map Prod.fst).Nodup) (k : String) (v : β) :
    ((jsMapSet m k v).map Prod.fst).Nodup := by
  unfold jsMapSet
  by_cases hex : ∃ e ∈ m, e.1 = k
  · rw [if_pos hex]
    have hmapfst : (m.map fun e => if e.1 = k then (k, v) else e).map Prod.fst
        = m.map Prod.fst := by
      rw [List.map_map]
      apply List.map_congr_left
      intro e he
      by_cases h₀ : e.1 = k
      · simp [h₀]
      · simp [h₀]
    rw [hmapfst]
    exact h
  · rw [if_neg hex, List.map_append]
    simp only [List.map_cons, List.map_nil]
    rw [List.nodup_append]
    refine ⟨h, List.nodup_singleton _, ?_⟩
    intro a ha hb
    rcases List.mem_singleton.mp hb with rfl
    rcases List.mem_map.mp ha with ⟨e, he, hfst⟩
    exact hex ⟨e, he, hfst⟩

theorem keysNodup_commentCounts (comments : List Comment) :
    ((commentCounts comments).map Prod.fst).Nodup := by
  unfold commentCounts
  suffices h : ∀ (m : List (String × Nat)), (m.map Prod.fst).Nodup →
      ((comments.foldl (fun m c => bumpCount m c.login) m).map Prod.fst).Nodup by
    exact h [] (by simp)
  induction comments with
  | nil => intro m hm; exact hm
  | cons c t ih =>
    intro m hm
    rw [List.foldl_cons]
    exact ih _ (keysNodup_jsMapSet hm c.login _)

theorem mem_iff_assocGet {β : Type} {m : List (String × β)}
    (h : (m.map Prod.fst).Nodup) (e : String × β) :
    e ∈ m ↔ assocGet e.1 m = some e.2 := by
  induction m with
  | nil => simp [assocGet]
  | cons x t ih =>
    rw [List.map_cons] at h
    have hnotin : x.1 ∉ t.map Prod.fst := (List.nodup_cons.mp h).1
    have ht : (t.map Prod.fst).Nodup := (List.nodup_cons.mp h).2
    by_cases hx : x.1 = e.1
    · simp only [assocGet, if_pos hx]
      constructor
      · intro hmem
        rcases List.mem_cons.mp hmem with rfl | h₁
        · rfl
        · exfalso
          apply hnotin
          rw [hx]
          exact List.mem_map.mpr ⟨e, h₁, rfl⟩
      · intro hsome
        have h2 : x.2 = e.2 := Option.some.inj hsome
        have hxe : x = e := Prod.ext hx h2
        rw [← hxe]
        exact List.mem_cons_self _ _
    · simp only [assocGet, if_neg hx]
      rw [← ih ht]
      constructor
      · intro hmem
        rcases List.mem_cons.mp hmem with rfl | h₁
        · exact absurd rfl hx
        · exact h₁
      · exact List.mem_cons_of_mem _

theorem mem_prolificWithoutApproval (pr : PR) (u : String) :
    u ∈ getProlificCommentersWithoutApproval pr ↔
      3 ≤ (getAllComments pr).countP (fun c => c.login = u) ∧
        u ∉ (getApprovals pr).map (fun a => a.login) ∧ u ≠ pr.authorLogin := by
  unfold getProlificCommentersWithoutApproval
  simp only [List.mem_map, List.mem_filter, Bool.and_eq_true, decide_eq_true_eq]
  constructor
  · rintro ⟨e, ⟨hec, ⟨⟨h3, happ⟩, hauth⟩⟩, rfl⟩
    have hget := (mem_iff_assocGet (keysNodup_commentCounts _) e).mp hec
    rw [assocGet_commentCounts] at hget
    by_cases hz : (getAllComments pr).countP (fun c => c.login = e.1) = 0
    · rw [if_pos hz] at hget
      cases hget
    · rw [if_neg hz] at hget
      have he2 : e.2 = (getAllComments pr).countP (fun c => c.login = e.1) :=
        (Option.some.inj hget).symm
      exact ⟨he2 ▸ h3, happ, hauth⟩
  · rintro ⟨h3, happ, hauth⟩
    refine ⟨(u, (getAllComments pr).countP (fun c => c.login = u)), ⟨?_, ⟨⟨h3, happ⟩, hauth⟩⟩, rfl⟩
    have hsome : assocGet u (commentCounts (getAllComments pr)) =
        some ((getAllComments pr).countP (fun c => c.login = u)) := by
      rw [assocGet_commentCounts]
      exact if_neg (by omega)
    exact (mem_iff_assocGet (keysNodup_commentCounts _)
      (u, (getAllComments pr).countP (fun c => c.login = u))).mpr hsome

theorem mem_prolificReRequested (pr : PR) (u : String) :
    u ∈ getProlificCommentersReRequested pr ↔
      3 ≤ (getAllComments pr).countP (fun c => c.login = u) ∧
        u ∈ pr.requestedReviewers ∧
        u ∉ (getApprovals pr).map (fun a => a.login) ∧ u ≠ pr.authorLogin := by
  unfold getProlificCommentersReRequested
  simp only [List.mem_map, List.mem_filter, Bool.and_eq_true, decide_eq_true_eq]
  constructor
  · rintro ⟨e, ⟨hec, ⟨⟨⟨h3, hreq⟩, happ⟩, hauth⟩⟩, rfl⟩
    have hget := (mem_iff_assocGet (keysNodup_commentCounts _) e).mp hec
    rw [assocGet_commentCounts] at hget
    by_cases hz : (getAllComments pr).countP (fun c => c.login = e.1) = 0
    · rw [if_pos hz] at hget
      cases hget
    · rw [if_neg hz] at hget
      have he2 : e.2 = (getAllComments pr).countP (fun c => c.login = e.1) :=
        (Option.some.inj hget).symm
      exact ⟨he2 ▸ h3, hreq, happ, hauth⟩
  · rintro ⟨h3, hreq, happ, hauth⟩
    refine ⟨(u, (getAllComments pr).countP (fun c => c.login = u)),
      ⟨?_, ⟨⟨⟨h3, hreq⟩, happ⟩, hauth⟩⟩, rfl⟩
    have hsome : assocGet u (commentCounts (getAllComments pr)) =
        some ((getAllComments pr).countP (fun c => c.login = u)) := by
      rw [assocGet_commentCounts]
      exact if_neg (by omega)
    exact (mem_iff_assocGet (keysNodup_commentCounts _)
      (u, (getAllComments pr).countP (fun c => c.login = u))).mpr hsome

theorem filter_map_fst_comm {β : Type} (l : List (String × β))
    (p : String × β → Bool) (q : String → Bool) :
    (l.filter (fun e => p e && q e.1)).map Prod.fst =
      ((l.filter p).map Prod.fst).filter q := by
  induction l with
  | nil => rfl
  | cons e t ih =>
    by_cases hp : p e = true
    · by_cases hq : q e.1 = true
      · simp [List.filter_cons, hp, hq, ih]
      · simp [List.filter_cons, hp, hq, ih]
    · simp [List.filter_cons, hp, Bool.eq_false_iff.mpr hp, ih]

theorem bool_shuffle (a b c d : Bool) :
    (a && b && c && d) = (a && c && d && b) := by
  cases a <;> cases b <;> cases c <;> cases d <;> rfl

theorem prolificReRequested_eq_filter (pr : PR) :
    getProlificCommentersReRequested pr =
      (getProlificCommentersWithoutApproval pr).filter
        (fun u => u ∈ pr.requestedReviewers) := by
  show (List.filter
      (fun (e : String × Nat) =>
        3 ≤ e.2 && e.1 ∈ pr.requestedReviewers &&
          e.1 ∉ (getApprovals pr).map (fun a => a.login) && e.1 ≠ pr.authorLogin)
      (commentCounts (getAllComments pr))).map Prod.fst =
    ((List.filter
      (fun (e : String × Nat) =>
        3 ≤ e.2 && e.1 ∉ (getApprovals pr).map (fun a => a.login) && e.1 ≠ pr.authorLogin)
      (commentCounts (getAllComments pr))).map Prod.fst).filter
      (fun u => u ∈ pr.requestedReviewers)
  rw [List.filter_congr (fun (e : String × Nat) _ => bool_shuffle (decide (3 ≤ e.2))
    (decide (e.1 ∈ pr.requestedReviewers))
    (decide (e.1 ∉ (getApprovals pr).map (fun a => a.login)))
    (decide (e.1 ≠ pr.authorLogin)))]
  exact filter_map_fst_comm (commentCounts (getAllComments pr))
    (fun e => decide (3 ≤ e.2) &&
      decide (e.1 ∉ (getApprovals pr).map (fun a => a.login)) &&
      decide (e.1 ≠ pr.authorLogin))
    (fun x => decide (x ∈ pr.requestedReviewers))

/-! ### Lemmas: `hasCommentsToFix` -/

theorem mem_setInsert (s : List String) (x u : String) :
    u ∈ setInsert s x ↔ u ∈ s ∨ u = x := by
  unfold setInsert
  by_cases hx : x ∈ s
  · rw [if_pos hx]
    constructor
    · exact Or.inl
    · rintro (h | rfl)
      · exact h
      · exact hx
  · rw [if_neg hx]
    simp

theorem mem_commentersFold (author : String) (comments : List Comment) :
    ∀ (s : List String) (u : String),
      (u ∈ comments.foldl
          (fun s c => if c.login ≠ author then setInsert s c.login else s) s ↔
        u ∈ s ∨ ∃ c ∈ comments, c.login = u ∧ c.login ≠ author) := by
  induction comments with
  | nil => intro s u; simp
  | cons c t ih =>
    intro s u
    rw [List.foldl_cons]
    by_cases hca : c.login ≠ author
    · rw [if_pos hca, ih, mem_setInsert]
      simp only [List.exists_mem_cons_iff]
      constructor
      · rintro ((h | rfl) | h)
        · exact Or.inl h
        · exact Or.inr (Or.inl ⟨rfl, hca⟩)
        · exact Or.inr (Or.inr h)
      · rintro (h | ⟨he, _⟩ | h)
        · exact Or.inl (Or.inl h)
        · exact Or.inl (Or.inr he.symm)
        · exact Or.inr h
    · rw [if_neg hca, ih]
      push_neg at hca
      simp only [List.exists_mem_cons_iff]
      constructor
      · rintro (h | h)
        · exact Or.inl h
        · exact Or.inr (Or.inr h)
      · rintro (h | ⟨_, hc⟩ | h)
        · exact Or.inl h
        · exact absurd hca hc
        · exact Or.inr h

theorem hasCommentsToFix_eq_any (pr : PR) :
    hasCommentsToFix pr =
      ((getAllComments pr).foldl
          (fun s c => if c.login ≠ pr.authorLogin then setInsert s c.login else s) []).any
        (fun c => c ∉ pr.requestedReviewers) := by
  simp only [hasCommentsToFix]
  by_cases hemp : (getAllComments pr).isEmpty
  · rw [if_pos hemp]
    rw [List.isEmpty_iff] at hemp
    rw [hemp]
    rfl
  · rw [if_neg hemp]
    by_cases hcem : ((getAllComments pr).foldl
        (fun s c => if c.login ≠ pr.authorLogin then setInsert s c.login else s) []).isEmpty
    · rw [if_pos hcem]
      rw [List.isEmpty_iff] at hcem
      rw [hcem]
      rfl
    · rw [if_neg hcem]

theorem hasCommentsToFix_iff_exists (pr : PR) :
    hasCommentsToFix pr = true ↔
      ∃ c ∈ getAllComments pr,
        c.login ≠ pr.authorLogin ∧ c.login ∉ pr.requestedReviewers := by
  rw [hasCommentsToFix_eq_any, List.any_eq_true]
  constructor
  · rintro ⟨x, hx, hreq⟩
    rw [mem_commentersFold] at hx
    rcases hx with h | ⟨c, hc, rfl, hca⟩
    · simp at h
    · exact ⟨c, hc, hca, by simpa using hreq⟩
  · rintro ⟨c, hc, hca, hreq⟩
    refine ⟨c.login, ?_, by simpa using hreq⟩
    rw [mem_commentersFold]
    exact Or.inr ⟨c, hc, rfl, hca⟩

/-! ### Lemmas: the classification cascade -/

theorem classifyStep_eq (env : Option String) (c : Categories) (pr : PR) :
    classifyStep env c pr =
      match classify env pr with
      | some Category.highPriority => { c with highPriority := c.highPriority ++ [pr] }
      | some Category.needsProlificCommentersApproval =>
        { c with needsProlificCommentersApproval := c.needsProlificCommentersApproval ++ [pr] }
      | some Category.hasCommentsToFix =>
        { c with hasCommentsToFix := c.hasCommentsToFix ++ [pr] }
      | some Category.needsMerging => { c with needsMerging := c.needsMerging ++ [pr] }
      | some Category.needOneMoreApproval =>
        { c with needOneMoreApproval := c.needOneMoreApproval ++ [pr] }
      | some Category.requiresReview => { c with requiresReview := c.requiresReview ++ [pr] }
      | none => c := by
  simp only [classifyStep, classify]
  split_ifs <;> rfl

theorem classifyStep_fields (env : Option String) (c : Categories) (pr : PR) :
    (classifyStep env c pr).highPriority =
      c.highPriority ++ (if classify env pr = some Category.highPriority then [pr] else []) ∧
    (classifyStep env c pr).needOneMoreApproval =
      c.needOneMoreApproval ++
        (if classify env pr = some Category.needOneMoreApproval then [pr] else []) ∧
    (classifyStep env c pr).needsProlificCommentersApproval =
      c.needsProlificCommentersApproval ++
        (if classify env pr = some Category.needsProlificCommentersApproval then [pr] else []) ∧
    (classifyStep env c pr).requiresReview =
      c.requiresReview ++ (if classify env pr = some Category.requiresReview then [pr] else []) ∧
    (classifyStep env c pr).hasCommentsToFix =
      c.hasCommentsToFix ++
        (if classify env pr = some Category.hasCommentsToFix then [pr] else []) ∧
    (classifyStep env c pr).needsMerging =
      c.needsMerging ++ (if classify env pr = some Category.needsMerging then [pr] else []) := by
  rw [classifyStep_eq]
  cases hcl : classify env pr with
  | none => simp
  | some cat => cases cat <;> simp

theorem categorizePRs_foldl_eq (env : Option String) :
    ∀ (prs : List PR) (c : Categories),
      prs.foldl (classifyStep env) c =
        ⟨c.highPriority ++
            prs.filter (fun pr => classify env pr = some Category.highPriority),
          c.needOneMoreApproval ++
            prs.filter (fun pr => classify env pr = some Category.needOneMoreApproval),
          c.needsProlificCommentersApproval ++
            prs.filter (fun pr => classify env pr = some Category.needsProlificCommentersApproval),
          c.requiresReview ++
            prs.filter (fun pr => classify env pr = some Category.requiresReview),
          c.hasCommentsToFix ++
            prs.filter (fun pr => classify env pr = some Category.hasCommentsToFix),
          c.needsMerging ++
            prs.filter (fun pr => classify env pr = some Category.needsMerging)⟩ := by
  intro prs
  induction prs with
  | nil =>
    intro c
    cases c
    simp
  | cons p ps ih =>
    intro c
    rw [List.foldl_cons, ih]
    obtain ⟨h1, h2, h3, h4, h5, h6⟩ := classifyStep_fields env c p
    simp only [List.filter_cons]
    cases hcl : classify env p with
    | none => simp [h1, h2, h3, h4, h5, h6, hcl]
    | some cat => cases cat <;> simp [h1, h2, h3, h4, h5, h6, hcl]

theorem categorizePRs_fields (env : Option String) (prs : List PR) :
    (categorizePRs env prs).highPriority =
        prs.filter (fun pr => classify env pr = some Category.highPriority) ∧
      (categorizePRs env prs).needOneMoreApproval =
        prs.filter (fun pr => classify env pr = some Category.needOneMoreApproval) ∧
      (categorizePRs env prs).needsProlificCommentersApproval =
        prs.filter (fun pr => classify env pr = some Category.needsProlificCommentersApproval) ∧
      (categorizePRs env prs).requiresReview =
        prs.filter (fun pr => classify env pr = some Category.requiresReview) ∧
      (categorizePRs env prs).hasCommentsToFix =
        prs.filter (fun pr => classify env pr = some Category.hasCommentsToFix) ∧
      (categorizePRs env prs).needsMerging =
        prs.filter (fun pr => classify env pr = some Category.needsMerging) := by
  unfold categorizePRs
  rw [categorizePRs_foldl_eq]
  simp

theorem mem_categorizePRs (env : Option String) (prs : List PR) (pr : PR) :
    (pr ∈ (categorizePRs env prs).highPriority ↔
        pr ∈ prs ∧ classify env pr = some Category.highPriority) ∧
      (pr ∈ (categorizePRs env prs).needOneMoreApproval ↔
        pr ∈ prs ∧ classify env pr = some Category.needOneMoreApproval) ∧
      (pr ∈ (categorizePRs env prs).needsProlificCommentersApproval ↔
        pr ∈ prs ∧ classify env pr = some Category.needsProlificCommentersApproval) ∧
      (pr ∈ (categorizePRs env prs).requiresReview ↔
        pr ∈ prs ∧ classify env pr = some Category.requiresReview) ∧
      (pr ∈ (categorizePRs env prs).hasCommentsToFix ↔
        pr ∈ prs ∧ classify env pr = some Category.hasCommentsToFix) ∧
      (pr ∈ (categorizePRs env prs).needsMerging ↔
        pr ∈ prs ∧ classify env pr = some Category.needsMerging) := by
  obtain ⟨h1, h2, h3, h4, h5, h6⟩ := categorizePRs_fields env prs
  rw [h1, h2, h3, h4, h5, h6]
  simp [List.mem_filter]

/-! ### Lemmas: the in-place review sort -/

theorem getApprovals_sortReviews (pr : PR) :
    getApprovals (sortReviewsInPlace pr) = getApprovals pr := by
  unfold getApprovals sortReviewsInPlace
  simp only
  rw [List.Sorted.insertionSort_eq (List.sorted_insertionSort reviewLe pr.reviews)]

theorem getAllComments_sortReviews (pr : PR) :
    getAllComments (sortReviewsInPlace pr) = getAllComments pr := rfl

theorem hasCommentsToFix_sortReviews (pr : PR) :
    hasCommentsToFix (sortReviewsInPlace pr) = hasCommentsToFix pr := rfl

theorem hasHighPriorityLabel_sortReviews (pr : PR) :
    hasHighPriorityLabel (sortReviewsInPlace pr) = hasHighPriorityLabel pr := rfl

theorem prolificWithoutApproval_sortReviews (pr : PR) :
    getProlificCommentersWithoutApproval (sortReviewsInPlace pr) =
      getProlificCommentersWithoutApproval pr := by
  unfold getProlificCommentersWithoutApproval
  rw [getApprovals_sortReviews, getAllComments_sortReviews]
  rfl

theorem prolificReRequested_sortReviews (pr : PR) :
    getProlificCommentersReRequested (sortReviewsInPlace pr) =
      getProlificCommentersReRequested pr := by
  unfold getProlificCommentersReRequested
  rw [getApprovals_sortReviews, getAllComments_sortReviews]
  rfl

theorem hasReviewOwnerApproval_sortReviews (env : Option String) (pr : PR) :
    hasReviewOwnerApproval env (sortReviewsInPlace pr) = hasReviewOwnerApproval env pr := by
  unfold hasReviewOwnerApproval
  cases env with
  | none => rfl
  | some o => rw [getApprovals_sortReviews]

theorem classify_sortReviews (env : Option String) (pr : PR) :
    classify env (sortReviewsInPlace pr) = classify env pr := by
  simp only [classify]
  rw [getApprovals_sortReviews, prolificReRequested_sortReviews,
    prolificWithoutApproval_sortReviews, hasCommentsToFix_sortReviews,
    hasReviewOwnerApproval_sortReviews, hasHighPriorityLabel_sortReviews]

theorem categoriesExt (a b : Categories)
    (h1 : a.highPriority = b.highPriority)
    (h2 : a.needOneMoreApproval = b.needOneMoreApproval)
    (h3 : a.needsProlificCommentersApproval = b.needsProlificCommentersApproval)
    (h4 : a.requiresReview = b.requiresReview)
    (h5 : a.hasCommentsToFix = b.hasCommentsToFix)
    (h6 : a.needsMerging = b.needsMerging) : a = b := by
  cases a
  cases b
  simp_all

theorem filter_classify_map_sortReviews (env : Option String) (prs : List PR)
    (cat : Category) :
    (prs.map sortReviewsInPlace).filter (fun pr => classify env pr = some cat) =
      (prs.filter (fun pr => classify env pr = some cat)).map sortReviewsInPlace := by
  rw [List.filter_map]
  congr 1
  apply List.filter_congr
  intro pr _
  simp [Function.comp, classify_sortReviews]

theorem categorizePRs_map_sortReviews (env : Option String) (prs : List PR) :
    categorizePRs env (prs.map sortReviewsInPlace) =
      mapCategories sortReviewsInPlace (categorizePRs env prs) := by
  obtain ⟨l1, l2, l3, l4, l5, l6⟩ := categorizePRs_fields env (prs.map sortReviewsInPlace)
  obtain ⟨r1, r2, r3, r4, r5, r6⟩ := categorizePRs_fields env prs
  apply categoriesExt
  · rw [l1]
    show _ = (categorizePRs env prs).highPriority.map sortReviewsInPlace
    rw [r1, filter_classify_map_sortReviews]
  · rw [l2]
    show _ = (categorizePRs env prs).needOneMoreApproval.map sortReviewsInPlace
    rw [r2, filter_classify_map_sortReviews]
  · rw [l3]
    show _ = (categorizePRs env prs).needsProlificCommentersApproval.map sortReviewsInPlace
    rw [r3, filter_classify_map_sortReviews]
  · rw [l4]
    show _ = (categorizePRs env prs).requiresReview.map sortReviewsInPlace
    rw [r4, filter_classify_map_sortReviews]
  · rw [l5]
    show _ = (categorizePRs env prs).hasCommentsToFix.map sortReviewsInPlace
    rw [r5, filter_classify_map_sortReviews]
  · rw [l6]
    show _ = (categorizePRs env prs).needsMerging.map sortReviewsInPlace
    rw [r6, filter_classify_map_sortReviews]

/-! ### Lemmas: comment filtering, priority labels and the sort comparator -/

theorem isHumanComment_eq_not_removed (c : Comment) :
    isHumanComment c = !(botRemovedSpec c) := by
  unfold isHumanComment botRemovedSpec
  simp only [ne_eq, decide_not, Bool.not_or]
  cases hx : decide (c.userType = "Bot") <;>
    cases hy : strIncludes c.login "bot" <;>
      cases hz : decide (c.login = "gitstream-cm") <;> rfl

theorem getAllComments_eq_filter_not_removed (pr : PR) :
    getAllComments pr =
      (pr.reviewComments ++ pr.issueComments).filter (fun c => !(botRemovedSpec c)) := by
  unfold getAllComments
  exact List.filter_congr fun c _ => isHumanComment_eq_not_removed c

theorem hasHighPriorityLabel_iff (pr : PR) :
    hasHighPriorityLabel pr = true ↔
      ∃ name ∈ pr.labels, ∃ p ∈ highPriorityPatterns,
        strIncludes (lowerStr name) p = true := by
  unfold hasHighPriorityLabel highPriorityPatterns
  rw [List.any_eq_true]
  constructor
  · rintro ⟨name, hn, hp⟩
    simp only [Bool.or_eq_true] at hp
    rcases hp with ((((h | h) | h) | h) | h)
    · exact ⟨name, hn, "high priority", by simp, h⟩
    · exact ⟨name, hn, "high-priority", by simp, h⟩
    · exact ⟨name, hn, "priority : high", by simp, h⟩
    · exact ⟨name, hn, "urgent", by simp, h⟩
    · exact ⟨name, hn, "critical", by simp, h⟩
  · rintro ⟨name, hn, p, hpmem, hinc⟩
    refine ⟨name, hn, ?_⟩
    simp only [Bool.or_eq_true]
    have : p = "high priority" ∨ p = "high-priority" ∨ p = "priority : high" ∨
        p = "urgent" ∨ p = "critical" := by simpa using hpmem
    rcases this with rfl | rfl | rfl | rfl | rfl <;> simp [hinc]

theorem sortPRsByPriority_pair (a b : PR) :
    sortPRsByPriority [a, b] = if prLe a b then [a, b] else [b, a] := by
  unfold sortPRsByPriority
  by_cases hab : prLe a b
  · simp [List.insertionSort, List.orderedInsert, hab]
  · simp [List.insertionSort, List.orderedInsert, hab]

theorem prLe_of_flags_eq_ge (a b : PR)
    (hflag : hasHighPriorityLabel a = hasHighPriorityLabel b)
    (hcreated : b.createdAt ≤ a.createdAt) : prLe a b := by
  unfold prLe prCmp
  cases hb : hasHighPriorityLabel b <;> rw [hb] at hflag <;> simp [hflag] <;> omega

theorem not_prLe_of_flags_eq_lt (a b : PR)
    (hflag : hasHighPriorityLabel a = hasHighPriorityLabel b)
    (hcreated : a.createdAt < b.createdAt) : ¬prLe a b := by
  unfold prLe prCmp
  cases hb : hasHighPriorityLabel b <;> rw [hb] at hflag <;> simp [hflag] <;> omega

theorem not_prLe_of_flag_lt (a b : PR)
    (ha : hasHighPriorityLabel a = false) (hb : hasHighPriorityLabel b = true) :
    ¬prLe a b := by
  unfold prLe prCmp
  simp [ha, hb]

/-! ### Claim theorems -/

/-- C2: `getApprovals` groups `pr.reviews` by login, keeps per login only
the review with the maximum submission timestamp (equal timestamps: the
later list position wins), and returns exactly the kept reviews whose
state is `APPROVED`; a login whose latest review is not `APPROVED` is
excluded even if an older one was.  Concretely, reviews
`[{A, CHANGES_REQUESTED, t=1}, {A, APPROVED, t=2}]` yield approvals `{A}`
and swapping the timestamps yields the empty set. -/
theorem getApprovals_latest_per_login (pr : PR) (r : Review) :
    (r ∈ getApprovals pr ↔
      latestReviewOf r.login pr.reviews = some r ∧ r.state = "APPROVED") ∧
    getApprovals { emptyPR with reviews :=
      [⟨"A", "CHANGES_REQUESTED", 1⟩, ⟨"A", "APPROVED", 2⟩] } =
        [⟨"A", "APPROVED", 2⟩] ∧
    getApprovals { emptyPR with reviews :=
      [⟨"A", "CHANGES_REQUESTED", 2⟩, ⟨"A", "APPROVED", 1⟩] } = [] :=
  ⟨mem_getApprovals pr r, by decide, by decide⟩

/-- C4: `hasCommentsToFix` is true iff some human commenter other than the
PR author is not in the individually-requested-reviewers set; requested
teams never affect the result. -/
theorem hasCommentsToFix_spec (pr : PR) (teams : List String) :
    (hasCommentsToFix pr = true ↔
      ∃ c ∈ getAllComments pr,
        c.login ≠ pr.authorLogin ∧ c.login ∉ pr.requestedReviewers) ∧
    hasCommentsToFix { pr with requestedTeams := teams } = hasCommentsToFix pr :=
  ⟨hasCommentsToFix_iff_exists pr, rfl⟩

/-- Witness for C4 at a concrete input: one human comment by "B", author
"C", nobody requested. -/
theorem hasCommentsToFix_spec_witness : hasCommentsToFix prOneComment = true :=
  (hasCommentsToFix_spec prOneComment []).1.mpr
    ⟨⟨"B", "User"⟩, by decide, by decide, by decide⟩

/-- C6: `getAllComments` is the order-preserving concatenation of review
comments then issue comments with a comment removed iff its author type is
`Bot`, its login contains the case-sensitive substring "bot", or its login
is `gitstream-cm`. -/
theorem getAllComments_spec (pr : PR) :
    (getAllComments pr =
      (pr.reviewComments ++ pr.issueComments).filter (fun c => !(botRemovedSpec c))) ∧
    (∀ c ∈ pr.reviewComments ++ pr.issueComments,
      (c ∉ getAllComments pr ↔ botRemovedSpec c = true)) := by
  refine ⟨getAllComments_eq_filter_not_removed pr, ?_⟩
  intro c hc
  rw [getAllComments_eq_filter_not_removed]
  constructor
  · intro hnot
    by_contra hbot
    apply hnot
    rw [List.mem_filter]
    refine ⟨hc, ?_⟩
    simp only [Bool.not_eq_true] at hbot
    simp [hbot]
  · intro hbot hmem
    rw [List.mem_filter] at hmem
    rw [hbot] at hmem
    simp at hmem

/-- Witness for C6 at a concrete input: the "dependabot" comment is
removed, the human comment is kept. -/
theorem getAllComments_spec_witness :
    (⟨"dependabot", "User"⟩ : Comment) ∉ getAllComments prBotComment ∧
      botRemovedSpec ⟨"dependabot", "User"⟩ = true :=
  ⟨((getAllComments_spec prBotComment).2 ⟨"dependabot", "User"⟩ (by decide)).mpr
      (by decide),
    by decide⟩

/-- C8: `getProlificCommentersWithoutApproval` is exactly the logins with
3+ human comments that are not in the latest-approval set and not the
author; `getProlificCommentersReRequested` is its restriction to the
individually-requested-reviewers set, hence always a subset. -/
theorem prolificCommenters_spec (pr : PR) (u : String) :
    (u ∈ getProlificCommentersWithoutApproval pr ↔
      3 ≤ (getAllComments pr).countP (fun c => c.login = u) ∧
        u ∉ (getApprovals pr).map (fun a => a.login) ∧ u ≠ pr.authorLogin) ∧
    (u ∈ getProlificCommentersReRequested pr ↔
      u ∈ getProlificCommentersWithoutApproval pr ∧ u ∈ pr.requestedReviewers) ∧
    getProlificCommentersReRequested pr =
      (getProlificCommentersWithoutApproval pr).filter
        (fun x => x ∈ pr.requestedReviewers) ∧
    (∀ x ∈ getProlificCommentersReRequested pr,
      x ∈ getProlificCommentersWithoutApproval pr) := by
  refine ⟨mem_prolificWithoutApproval pr u, ?_, prolificReRequested_eq_filter pr, ?_⟩
  · rw [mem_prolificReRequested, mem_prolificWithoutApproval]
    tauto
  · intro x hx
    rw [prolificReRequested_eq_filter] at hx
    exact (List.mem_filter.mp hx).1

/-- Witness for C8 at a concrete input: "B" has three human comments on
`prUrgent`, is requested, has not approved and is not the author. -/
theorem prolificCommenters_spec_witness :
    "B" ∈ getProlificCommentersWithoutApproval prUrgent :=
  (prolificCommenters_spec prUrgent "B").2.2.2 "B" (by decide)

/-- C1: the seven rules are an ordered, short-circuiting cascade (each
rule fires exactly when it matches and all earlier rules fail), every pull
request lands in at most one category list, and the concrete pull request
with 5 human comments from non-author "B" (not requested), 0 approvals and
no high-priority label is classified `hasCommentsToFix`, not
`needsProlificCommentersApproval`. -/
theorem cascade_order_spec (env : Option String) (prs : List PR) (pr : PR) :
    ((hasHighPriorityLabel pr = true → classify env pr = some Category.highPriority) ∧
      (hasHighPriorityLabel pr = false →
        getProlificCommentersReRequested pr ≠ [] →
        classify env pr = some Category.needsProlificCommentersApproval) ∧
      (hasHighPriorityLabel pr = false →
        getProlificCommentersReRequested pr = [] →
        hasCommentsToFix pr = true →
        classify env pr = some Category.hasCommentsToFix) ∧
      (hasHighPriorityLabel pr = false →
        getProlificCommentersReRequested pr = [] →
        hasCommentsToFix pr = false →
        2 ≤ (getApprovals pr).length →
        hasReviewOwnerApproval env pr = false →
        classify env pr = some Category.needsMerging) ∧
      (hasHighPriorityLabel pr = false →
        getProlificCommentersReRequested pr = [] →
        hasCommentsToFix pr = false →
        ¬(2 ≤ (getApprovals pr).length ∧ hasReviewOwnerApproval env pr = false) →
        getProlificCommentersWithoutApproval pr ≠ [] →
        classify env pr = some Category.needsProlificCommentersApproval) ∧
      (hasHighPriorityLabel pr = false →
        getProlificCommentersReRequested pr = [] →
        hasCommentsToFix pr = false →
        getProlificCommentersWithoutApproval pr = [] →
        (getApprovals pr).length = 1 →
        classify env pr = some Category.needOneMoreApproval) ∧
      (hasHighPriorityLabel pr = false →
        getProlificCommentersReRequested pr = [] →
        hasCommentsToFix pr = false →
        getProlificCommentersWithoutApproval pr = [] →
        (getApprovals pr).length = 0 →
        classify env pr = some Category.requiresReview)) ∧
    ((if pr ∈ (categorizePRs env prs).highPriority then 1 else 0) +
        (if pr ∈ (categorizePRs env prs).needOneMoreApproval then 1 else 0) +
        (if pr ∈ (categorizePRs env prs).needsProlificCommentersApproval then 1 else 0) +
        (if pr ∈ (categorizePRs env prs).requiresReview then 1 else 0) +
        (if pr ∈ (categorizePRs env prs).hasCommentsToFix then 1 else 0) +
        (if pr ∈ (categorizePRs env prs).needsMerging then 1 else 0) ≤ 1) ∧
    classify none prFiveComments = some Category.hasCommentsToFix ∧
    (categorizePRs none [prFiveComments]).hasCommentsToFix = [prFiveComments] ∧
    (categorizePRs none [prFiveComments]).needsProlificCommentersApproval = [] := by
  refine ⟨⟨?_, ?_, ?_, ?_, ?_, ?_, ?_⟩, ?_, by decide, by decide, by decide⟩
  · intro h
    simp [classify, h]
  · intro h1 h2
    simp [classify, h1, List.length_pos.mpr h2]
  · intro h1 h2 h3
    simp [classify, h1, h2, h3]
  · intro h1 h2 h3 h4 h5
    simp [classify, h1, h2, h3, h4, h5]
  · intro h1 h2 h3 hno h5
    have hc4 : ¬(2 ≤ (getApprovals pr).length ∧
        !(hasCommentsToFix pr) ∧ !(hasReviewOwnerApproval env pr)) := by
      rintro ⟨ha, _, hc⟩
      exact hno ⟨ha, by simpa using hc⟩
    simp only [classify, h1, h2, h3, hc4, List.length_pos.mpr h5, if_false, if_true,
      Bool.false_eq_true, List.length_nil, lt_irrefl, if_neg hc4]
    simp [List.length_pos.mpr h5]
    intro ha
    by_contra hb
    exact hno ⟨ha, Bool.eq_false_iff.mpr hb⟩
  · intro h1 h2 h3 h4 h5
    simp [classify, h1, h2, h3, h4, h5]
  · intro h1 h2 h3 h4 h5
    simp [classify, h1, h2, h3, h4, h5]
  · obtain ⟨m1, m2, m3, m4, m5, m6⟩ := mem_categorizePRs env prs pr
    by_cases hin : pr ∈ prs
    · cases hcl : classify env pr with
      | none => simp [m1, m2, m3, m4, m5, m6, hcl]
      | some cat => cases cat <;> simp [m1, m2, m3, m4, m5, m6, hcl, hin]
    · simp [m1, m2, m3, m4, m5, m6, hin]

/-- Witness for C1: rule 3 fires on the concrete five-comment pull
request. -/
theorem cascade_order_spec_witness :
    classify none prFiveComments = some Category.hasCommentsToFix :=
  (cascade_order_spec none [] prFiveComments).1.2.2.1 (by decide) (by decide) (by decide)

/-- C3: a pull request with 2+ approvals, no comments-to-fix, the
review-owner among the approvers, no high-priority label and empty
prolific sets falls through all seven rules: it lands in none of the six
category lists and is absent from every section of the report (the
sections enumerate exactly `reportPRs`). -/
theorem fallthrough_unclassified (env : Option String) (o : String) (prs : List PR)
    (pr : PR)
    (henv : env = some o)
    (hcnt : 2 ≤ (getApprovals pr).length)
    (hctf : hasCommentsToFix pr = false)
    (hown : (getApprovals pr).any (fun a => a.login = o) = true)
    (hhp : hasHighPriorityLabel pr = false)
    (hre : getProlificCommentersReRequested pr = [])
    (hwo : getProlificCommentersWithoutApproval pr = []) :
    classify env pr = none ∧
      pr ∉ (categorizePRs env prs).highPriority ∧
      pr ∉ (categorizePRs env prs).needOneMoreApproval ∧
      pr ∉ (categorizePRs env prs).needsProlificCommentersApproval ∧
      pr ∉ (categorizePRs env prs).requiresReview ∧
      pr ∉ (categorizePRs env prs).hasCommentsToFix ∧
      pr ∉ (categorizePRs env prs).needsMerging ∧
      pr ∉ reportPRs (categorizePRs env prs) := by
  subst henv
  have howner : hasReviewOwnerApproval (some o) pr = true := hown
  have h1 : ¬((getApprovals pr).length = 1) := by omega
  have h0 : ¬((getApprovals pr).length = 0) := by omega
  have hcl : classify (some o) pr = none := by
    simp [classify, hhp, hre, hctf, hwo, howner, h1, h0]
  obtain ⟨m1, m2, m3, m4, m5, m6⟩ := mem_categorizePRs (some o) prs pr
  refine ⟨hcl, by simp [m1, hcl], by simp [m2, hcl], by simp [m3, hcl],
    by simp [m4, hcl], by simp [m5, hcl], by simp [m6, hcl], ?_⟩
  simp [reportPRs, List.mem_append, m1, m2, m3, m4, m5, m6, hcl]

/-- Witness for C3: `prTwoApprovals` with review-owner "A" (one of the two
approvers) is silently omitted. -/
theorem fallthrough_unclassified_witness :
    classify (some "A") prTwoApprovals = none ∧
      prTwoApprovals ∉ reportPRs (categorizePRs (some "A") [prTwoApprovals]) := by
  have h := fallthrough_unclassified (some "A") "A" [prTwoApprovals] prTwoApprovals rfl
    (by decide) (by decide) (by decide) (by decide) (by decide) (by decide)
  exact ⟨h.1, h.2.2.2.2.2.2.2⟩

/-- C7: a label matching one of the five priority markers
(case-insensitively, as a substring) forces `highPriority` regardless of
all other state; in particular any pull request labelled "URGENT-fix" is
classified `highPriority`. -/
theorem highPriority_shortCircuit (env : Option String) (prs : List PR) (pr : PR) :
    (hasHighPriorityLabel pr = true ↔
      ∃ name ∈ pr.labels, ∃ p ∈ highPriorityPatterns,
        strIncludes (lowerStr name) p = true) ∧
    (hasHighPriorityLabel pr = true → classify env pr = some Category.highPriority) ∧
    (hasHighPriorityLabel pr = true → pr ∈ prs →
      pr ∈ (categorizePRs env prs).highPriority) ∧
    ("URGENT-fix" ∈ pr.labels → classify env pr = some Category.highPriority) := by
  refine ⟨hasHighPriorityLabel_iff pr, ?_, ?_, ?_⟩
  · intro h
    simp [classify, h]
  · intro h hin
    exact ((mem_categorizePRs env prs pr).1).mpr ⟨hin, by simp [classify, h]⟩
  · intro hmem
    have hhp : hasHighPriorityLabel pr = true := by
      rw [hasHighPriorityLabel_iff]
      exact ⟨"URGENT-fix", hmem, "urgent", by simp [highPriorityPatterns], by decide⟩
    simp [classify, hhp]

/-- Witness for C7: `prUrgent` (which would otherwise hit rules 2 and 3)
is classified `highPriority`. -/
theorem highPriority_shortCircuit_witness :
    classify none prUrgent = some Category.highPriority ∧
      prUrgent ∈ (categorizePRs none [prUrgent]).highPriority :=
  ⟨(highPriority_shortCircuit none [] prUrgent).2.2.2 (by decide),
    (highPriority_shortCircuit none [prUrgent] prUrgent).2.2.1 (by decide) (by decide)⟩

/-- C10: with no `REVIEW_OWNER` configured, `hasReviewOwnerApproval` is
false for every pull request, so a pull request reaching rule 4 with 2+
approvals and no comments-to-fix is always classified `needsMerging` — the
§4.4 fall-through is unreachable for such pull requests. -/
theorem noReviewOwner_needsMerging (prs : List PR) (pr : PR) :
    hasReviewOwnerApproval none pr = false ∧
      (hasHighPriorityLabel pr = false →
        getProlificCommentersReRequested pr = [] →
        hasCommentsToFix pr = false →
        2 ≤ (getApprovals pr).length →
        (classify none pr = some Category.needsMerging ∧
          (pr ∈ prs → pr ∈ (categorizePRs none prs).needsMerging))) := by
  refine ⟨rfl, ?_⟩
  intro hhp hre hctf hcnt
  have hcl : classify none pr = some Category.needsMerging := by
    simp [classify, hhp, hre, hctf, hcnt, hasReviewOwnerApproval]
  obtain ⟨m1, m2, m3, m4, m5, m6⟩ := mem_categorizePRs none prs pr
  exact ⟨hcl, fun hin => m6.mpr ⟨hin, hcl⟩⟩

/-- Witness for C10: with no review owner, the two-approval pull request
is classified `needsMerging` (and is not unclassified). -/
theorem noReviewOwner_needsMerging_witness :
    classify none prTwoApprovals = some Category.needsMerging ∧
      prTwoApprovals ∈ (categorizePRs none [prTwoApprovals]).needsMerging := by
  have h := (noReviewOwner_needsMerging [prTwoApprovals] prTwoApprovals).2
    (by decide) (by decide) (by decide) (by decide)
  exact ⟨h.1, h.2 (by decide)⟩

set_option maxRecDepth 10000 in
/-- C5 counterexample: two equal-priority pull requests created at times
1 < 2, supplied in order [T1, T2], are rendered by `generateMarkdown` with
the T1 bullet *before* the T2 bullet (input order), not in the claimed
newest-first order [T2, T1] — `generateMarkdown` never invokes
`sortPRsByPriority`. -/
theorem report_unsorted_counterexample :
    prT1.createdAt < prT2.createdAt ∧
      hasHighPriorityLabel prT1 = hasHighPriorityLabel prT2 ∧
      (categorizePRs none [prT1, prT2]).requiresReview = [prT1, prT2] ∧
      generateMarkdown "2026-01-01" none [prT1, prT2] "o" "r" =
        "# Pull Requests for o/r\n\nGenerated on: 2026-01-01\nTotal PRs: 2\n\n" ++
          "## Requires review :writing_hand:\n- [PR-T1](https://example.test/pr/t1)\n" ++
          "- [PR-T2](https://example.test/pr/t2)\n\n" :=
  ⟨by decide, by decide, by decide, by decide⟩

/-- C5 amended: `sortPRsByPriority` itself sorts with the high-priority
flag descending and creation timestamp descending (stable on ties): it
produces a `prLe`-sorted permutation; for equal-priority pull requests
with T1 < T2 it returns [T2, T1], equal timestamps retain input order, and
a high-priority pull request with an earlier timestamp sorts before a
non-high-priority one with a later timestamp.  However `generateMarkdown`
never applies this sort: each report section lists pull requests in input
order (the category lists are order-preserving filters of the input). -/
theorem sortPRsByPriority_spec (prs : List PR) (a b : PR) (env : Option String) :
    List.Sorted prLe (sortPRsByPriority prs) ∧
      (sortPRsByPriority prs).Perm prs ∧
      (hasHighPriorityLabel a = hasHighPriorityLabel b → a.createdAt < b.createdAt →
        sortPRsByPriority [a, b] = [b, a]) ∧
      (hasHighPriorityLabel a = hasHighPriorityLabel b → a.createdAt = b.createdAt →
        sortPRsByPriority [a, b] = [a, b]) ∧
      (hasHighPriorityLabel a = true → hasHighPriorityLabel b = false →
        a.createdAt < b.createdAt → sortPRsByPriority [b, a] = [a, b]) ∧
      (categorizePRs env prs).requiresReview =
        prs.filter (fun pr => classify env pr = some Category.requiresReview) ∧
      (categorizePRs env prs).highPriority =
        prs.filter (fun pr => classify env pr = some Category.highPriority) := by
  obtain ⟨f1, _, _, f4, _, _⟩ := categorizePRs_fields env prs
  refine ⟨List.sorted_insertionSort prLe prs, List.perm_insertionSort prLe prs,
    ?_, ?_, ?_, f4, f1⟩
  · intro hflag hlt
    rw [sortPRsByPriority_pair, if_neg (not_prLe_of_flags_eq_lt a b hflag hlt)]
  · intro hflag heq
    rw [sortPRsByPriority_pair, if_pos (prLe_of_flags_eq_ge a b hflag (le_of_eq heq.symm))]
  · intro ha hb _
    rw [sortPRsByPriority_pair,
      if_neg (not_prLe_of_flag_lt b a hb ha)]

/-- Witness for the amended C5: the comparator really does put the newer
equal-priority pull request first. -/
theorem sortPRsByPriority_spec_witness :
    sortPRsByPriority [prT1, prT2] = [prT2, prT1] :=
  (sortPRsByPriority_spec [] prT1 prT2 none).2.2.1 (by decide) (by decide)

/-- C9 counterexample: `getApprovals` sorts `pr.reviews` in place
(JavaScript `Array.prototype.sort` mutates), so a pull request whose
reviews arrive newest-first is *changed* by classification:
`sortReviewsInPlace` is the post-state of the pull request after
`getApprovals` runs. -/
theorem inPlaceSort_mutates_counterexample :
    sortReviewsInPlace prUnsorted ≠ prUnsorted ∧
      prUnsorted.reviews = [⟨"A", "APPROVED", 2⟩, ⟨"B", "APPROVED", 1⟩] ∧
      (sortReviewsInPlace prUnsorted).reviews =
        [⟨"B", "APPROVED", 1⟩, ⟨"A", "APPROVED", 2⟩] :=
  ⟨by decide, by decide, by decide⟩

/-- C9 amended: classification is total and deterministic, and its only
mutation of the input is the in-place reordering of each `reviews` array
by submission timestamp (a permutation).  Every helper is invariant under
that mutation, so a second run on the post-mutation snapshot yields the
same category assignment (the same pull-request objects in the same
lists). -/
theorem classification_deterministic_upto_sort (env : Option String) (prs : List PR)
    (pr : PR) :
    getApprovals (sortReviewsInPlace pr) = getApprovals pr ∧
      getAllComments (sortReviewsInPlace pr) = getAllComments pr ∧
      hasCommentsToFix (sortReviewsInPlace pr) = hasCommentsToFix pr ∧
      getProlificCommentersReRequested (sortReviewsInPlace pr) =
        getProlificCommentersReRequested pr ∧
      getProlificCommentersWithoutApproval (sortReviewsInPlace pr) =
        getProlificCommentersWithoutApproval pr ∧
      hasReviewOwnerApproval env (sortReviewsInPlace pr) =
        hasReviewOwnerApproval env pr ∧
      hasHighPriorityLabel (sortReviewsInPlace pr) = hasHighPriorityLabel pr ∧
      classify env (sortReviewsInPlace pr) = classify env pr ∧
      (sortReviewsInPlace pr).reviews.Perm pr.reviews ∧
      categorizePRs env (prs.map sortReviewsInPlace) =
        mapCategories sortReviewsInPlace (categorizePRs env prs) :=
  ⟨getApprovals_sortReviews pr, rfl, rfl,
    prolificReRequested_sortReviews pr, prolificWithoutApproval_sortReviews pr,
    hasReviewOwnerApproval_sortReviews env pr, rfl,
    classify_sortReviews env pr, List.perm_insertionSort reviewLe pr.reviews,
    categorizePRs_map_sortReviews env prs⟩
